import Mathlib

/-
  A shallow embedding of the room/connection core of `websocket-server.js`.

  The server keeps two global JS `Map`s:
    rooms       : roomKey (8-char string) -> { clients : Set<WebSocket>, messages : Array, createdAt }
    clientRooms : WebSocket -> roomKey
  and a per-connection message handler dispatching on the envelope's `type`.

  Connections are modelled as natural numbers.  JS `Map`s are modelled as
  association lists with the JS semantics: `set` replaces the entry in place
  (keeping its position) or appends a fresh entry at the end; `get` returns
  the entry's value; `delete` removes the entry.  JS `Set`s of connections
  are modelled as duplicate-free lists in insertion order: `add` appends if
  absent, `delete` removes the element.

  Nondeterministic inputs of a handler run (the generated room key from
  `crypto.randomBytes`, the message id from `crypto.randomUUID`, the clock)
  are passed explicitly as an `Oracle`.  The readyState of each socket is a
  Boolean function `op`; `send` to a non-open socket does nothing, which the
  model captures by producing no output pair for it.

  A crucial detail of the source is faithfully preserved: room objects are
  mutated in place, so in `join_room` the `existingRoom` object fetched at
  the start stays aliased with the map entry; if the connection re-joins the
  room it already occupies alone, the "leave current room" step deletes the
  map entry and the subsequent `clients.add(ws)` mutates a detached object.
-/

namespace WS

abbrev Conn := Nat

structure Msg where
  id : Nat
  text : String
  timestamp : Nat
  sender : String
  deriving DecidableEq, Repr

structure Room where
  clients : List Conn
  messages : List Msg
  createdAt : Nat
  deriving DecidableEq, Repr

structure ServerState where
  rooms : List (String × Room)
  clientRooms : List (Conn × String)
  deriving DecidableEq, Repr

def initialState : ServerState := ⟨[], []⟩

/-- JS `Map.get`. -/
def mapGet {α β : Type} [DecidableEq α] (m : List (α × β)) (k : α) : Option β :=
  (m.find? (fun p => decide (p.1 = k))).map Prod.snd

/-- JS `Map.set`: replace in place, else append. -/
def mapSet {α β : Type} [DecidableEq α] : List (α × β) → α → β → List (α × β)
  | [], k, v => [(k, v)]
  | (a, b) :: m, k, v => if a = k then (k, v) :: m else (a, b) :: mapSet m k v

/-- JS `Map.delete` (on a map with unique keys). -/
def mapDelete {α β : Type} [DecidableEq α] (m : List (α × β)) (k : α) : List (α × β) :=
  m.filter (fun p => decide (¬ p.1 = k))

/-- JS `Set.add` on an insertion-ordered duplicate-free list. -/
def setAdd (l : List Conn) (c : Conn) : List Conn :=
  if c ∈ l then l else l ++ [c]

/-- JS `Set.delete` on a duplicate-free list. -/
def setDelete (l : List Conn) (c : Conn) : List Conn :=
  l.filter (fun x => decide (¬ x = c))

/-- `Array.prototype.slice(-n)`: the last `n` elements (all of them if fewer). -/
def takeLast {α : Type} (n : Nat) (l : List α) : List α :=
  l.drop (l.length - n)

/-- Inbound envelopes, after JSON parsing, dispatched on `type`.  `other`
stands for any envelope whose `type` matches no case. -/
inductive ClientMsg where
  | create_room
  | join_room (roomKey : String)
  | send_message (text : String) (sender : Option String)
  | leave_room
  | ping
  | other
  deriving DecidableEq, Repr

/-- Outbound payloads, one constructor per `type` the server sends. -/
inductive ServerMsg where
  | connected (message : String) (success : Bool)
  | room_created (roomKey : String) (success : Bool)
  | room_joined (roomKey : String) (success : Bool) (participantCount : Nat)
  | join_error (error : String) (success : Bool)
  | message (m : Msg)
  | participant_joined (participantCount : Nat)
  | participant_left (participantCount : Nat)
  | room_left (success : Bool)
  | error (error : String) (success : Bool)
  | pong
  deriving DecidableEq, Repr

/-- The nondeterministic inputs of one handler run: the string
`generateRoomKey()` would return, the id `crypto.randomUUID()` would
return, and the current clock value. -/
structure Oracle where
  freshKey : String
  freshId : Nat
  now : Nat
  deriving DecidableEq, Repr

/-- `sendToClient`: send only when the socket is open. -/
def sendToClient (op : Conn → Bool) (c : Conn) (m : ServerMsg) : List (Conn × ServerMsg) :=
  if op c then [(c, m)] else []

/-- `broadcastToRoom`: re-fetch the room, send to every member except
`sender` whose socket is open. -/
def broadcastToRoom (op : Conn → Bool) (rooms : List (String × Room)) (roomId : String)
    (m : ServerMsg) (sender : Conn) : List (Conn × ServerMsg) :=
  match mapGet rooms roomId with
  | none => []
  | some room =>
    (room.clients.filter (fun c => decide (¬ c = sender) && op c)).map (fun c => (c, m))

/-- `message.sender || 'Anonymous'` (the empty string is falsy in JS). -/
def senderOrDefault (s : Option String) : String :=
  match s with
  | none => "Anonymous"
  | some t => if t = "" then "Anonymous" else t

/-- `case 'create_room'`: make a fresh room holding only `ws`, store it
under the generated key (no collision check), bind `ws`, reply. -/
def handleCreateRoom (op : Conn → Bool) (o : Oracle) (s : ServerState) (ws : Conn) :
    ServerState × List (Conn × ServerMsg) :=
  let roomKey := o.freshKey
  let newRoom : Room := { clients := [ws], messages := [], createdAt := o.now }
  ({ rooms := mapSet s.rooms roomKey newRoom,
     clientRooms := mapSet s.clientRooms ws roomKey },
   sendToClient op ws (ServerMsg.room_created roomKey true))

/-- `case 'join_room'`.  `leaveStep` returns the room map after the "leave
current room" block together with the current `clients` content of the
`existingRoom` object (which that block may have mutated through aliasing
when the connection re-joins its own room). -/
def handleJoinRoom (op : Conn → Bool) (s : ServerState) (ws : Conn) (joinKey : String) :
    ServerState × List (Conn × ServerMsg) :=
  match mapGet s.rooms joinKey with
  | none => (s, sendToClient op ws (ServerMsg.join_error "Room not found" false))
  | some existingRoom =>
    let leaveStep : List (String × Room) × List Conn :=
      match mapGet s.clientRooms ws with
      | none => (s.rooms, existingRoom.clients)
      | some currentRoom =>
        match mapGet s.rooms currentRoom with
        | none => (s.rooms, existingRoom.clients)
        | some room =>
          let remaining := setDelete room.clients ws
          let rooms' :=
            if remaining.length = 0 then mapDelete s.rooms currentRoom
            else mapSet s.rooms currentRoom { room with clients := remaining }
          if currentRoom = joinKey then (rooms', remaining)
          else (rooms', existingRoom.clients)
    let newClients := setAdd leaveStep.2 ws
    let joinedRoom : Room := { existingRoom with clients := newClients }
    let rooms2 :=
      match mapGet leaveStep.1 joinKey with
      | some _ => mapSet leaveStep.1 joinKey joinedRoom
      | none => leaveStep.1
    let replay := (takeLast 10 existingRoom.messages).map (fun m => (ws, ServerMsg.message m))
    ({ rooms := rooms2, clientRooms := mapSet s.clientRooms ws joinKey },
     sendToClient op ws (ServerMsg.room_joined joinKey true newClients.length)
       ++ (if op ws then replay else [])
       ++ broadcastToRoom op rooms2 joinKey
            (ServerMsg.participant_joined newClients.length) ws)

/-- `room.messages.push(...)` followed by the trim to the last 50. -/
def record (history : List Msg) (m : Msg) : List Msg :=
  let pushed := history ++ [m]
  if pushed.length > 50 then takeLast 50 pushed else pushed

/-- `case 'send_message'`. -/
def handleSendMessage (op : Conn → Bool) (o : Oracle) (s : ServerState) (ws : Conn)
    (text : String) (sender : Option String) : ServerState × List (Conn × ServerMsg) :=
  match mapGet s.clientRooms ws with
  | none => (s, sendToClient op ws (ServerMsg.error "Not in a room" false))
  | some roomId =>
    match mapGet s.rooms roomId with
    | none => (s, sendToClient op ws (ServerMsg.error "Room not found" false))
    | some room =>
      let messageData : Msg :=
        { id := o.freshId, text := text, timestamp := o.now,
          sender := senderOrDefault sender }
      let room' : Room := { room with messages := record room.messages messageData }
      ({ s with rooms := mapSet s.rooms roomId room' },
       (room.clients.filter op).map (fun c => (c, ServerMsg.message messageData)))

/-- `case 'leave_room'` (with `reply := true`) and the `close` handler
(with `reply := false`): same side effects, the close path just sends no
`room_left` acknowledgement. -/
def handleLeaveRoom (op : Conn → Bool) (s : ServerState) (ws : Conn) (reply : Bool) :
    ServerState × List (Conn × ServerMsg) :=
  match mapGet s.clientRooms ws with
  | none => (s, [])
  | some leaveRoomId =>
    match mapGet s.rooms leaveRoomId with
    | none =>
      ({ s with clientRooms := mapDelete s.clientRooms ws },
       if reply then sendToClient op ws (ServerMsg.room_left true) else [])
    | some leaveRoom =>
      let remaining := setDelete leaveRoom.clients ws
      let rooms1 := mapSet s.rooms leaveRoomId { leaveRoom with clients := remaining }
      let notif := broadcastToRoom op rooms1 leaveRoomId
        (ServerMsg.participant_left remaining.length) ws
      let rooms2 := if remaining.length = 0 then mapDelete rooms1 leaveRoomId else rooms1
      ({ rooms := rooms2, clientRooms := mapDelete s.clientRooms ws },
       notif ++ (if reply then sendToClient op ws (ServerMsg.room_left true) else []))

/-- One inbound event: an envelope from a connection, or its transport
closing. -/
inductive Event where
  | msg (ws : Conn) (m : ClientMsg)
  | close (ws : Conn)
  deriving DecidableEq, Repr

/-- The per-event dispatch of the `'message'` and `'close'` listeners. -/
def handleEvent (op : Conn → Bool) (o : Oracle) (s : ServerState) (e : Event) :
    ServerState × List (Conn × ServerMsg) :=
  match e with
  | Event.msg ws ClientMsg.create_room => handleCreateRoom op o s ws
  | Event.msg ws (ClientMsg.join_room k) => handleJoinRoom op s ws k
  | Event.msg ws (ClientMsg.send_message t sd) => handleSendMessage op o s ws t sd
  | Event.msg ws ClientMsg.leave_room => handleLeaveRoom op s ws true
  | Event.msg ws ClientMsg.ping => (s, sendToClient op ws ServerMsg.pong)
  | Event.msg ws ClientMsg.other =>
      (s, sendToClient op ws (ServerMsg.error "Unknown message type" false))
  | Event.close ws => handleLeaveRoom op s ws false

/-- States reachable from the empty server state by events whose steps all
satisfy `P`. -/
inductive ReachableP (P : ServerState → Event → Oracle → Prop) : ServerState → Prop where
  | init : ReachableP P initialState
  | step {s : ServerState} (e : Event) (o : Oracle) (op : Conn → Bool) :
      ReachableP P s → P s e o → ReachableP P (handleEvent op o s e).1

/-- States reachable by arbitrary event sequences. -/
def Reachable : ServerState → Prop :=
  ReachableP (fun _ _ _ => True)

/-- The Room Store / Connection-Room Index agreement stated by the spec:
for every stored room, membership in its client set is equivalent to being
bound to its key. -/
def Agrees (s : ServerState) : Prop :=
  ∀ k r, (k, r) ∈ s.rooms → ∀ c, c ∈ r.clients ↔ mapGet s.clientRooms c = some k

/-- Side conditions on a step under which the agreement invariant survives:
`create_room` only from an unbound connection and with a generated key not
already present in the store, and no `join_room` that re-joins the room of
which the connection is already the only member. -/
def stepOK (s : ServerState) (e : Event) (o : Oracle) : Prop :=
  match e with
  | Event.msg ws ClientMsg.create_room =>
      mapGet s.clientRooms ws = none ∧ mapGet s.rooms o.freshKey = none
  | Event.msg ws (ClientMsg.join_room k) =>
      ¬ (mapGet s.clientRooms ws = some k ∧
          ∃ r, mapGet s.rooms k = some r ∧ setDelete r.clients ws = [])
  | _ => True

def ReachableOK : ServerState → Prop := ReachableP stepOK

/-- The inductive strengthening of `Agrees`: well-formed maps,
duplicate-free member sets, membership implies binding, and every binding
points to a stored room containing the connection. -/
def Inv (s : ServerState) : Prop :=
  (s.rooms.map Prod.fst).Nodup ∧
  (s.clientRooms.map Prod.fst).Nodup ∧
  (∀ k r, mapGet s.rooms k = some r → r.clients.Nodup) ∧
  (∀ k r, mapGet s.rooms k = some r → ∀ c, c ∈ r.clients →
      mapGet s.clientRooms c = some k) ∧
  (∀ c k, mapGet s.clientRooms c = some k → ∃ r, mapGet s.rooms k = some r ∧ c ∈ r.clients)

/-- Number of entries in an output batch addressed to `c` whose payload
satisfies `pr`. -/
def deliveredCount (out : List (Conn × ServerMsg)) (c : Conn) (pr : ServerMsg → Bool) : Nat :=
  (out.filter (fun p => decide (p.1 = c) && pr p.2)).length

def isChat : ServerMsg → Bool
  | ServerMsg.message _ => true
  | _ => false

def isPJoined : ServerMsg → Bool
  | ServerMsg.participant_joined _ => true
  | _ => false

def isPLeft : ServerMsg → Bool
  | ServerMsg.participant_left _ => true
  | _ => false

/-- An environment in which every socket is open. -/
def allOpen : Conn → Bool := fun _ => true

/-- State after connection 0 creates a room keyed `AAAA1111`. -/
def oneCreateState : ServerState :=
  (handleEvent allOpen ⟨"AAAA1111", 0, 0⟩ initialState
    (Event.msg 0 ClientMsg.create_room)).1

/-- State after connection 0, already in room `AAAA1111`, sends a second
`create_room` that generates `BBBB2222`. -/
def twoCreatesState : ServerState :=
  (handleEvent allOpen ⟨"BBBB2222", 1, 1⟩ oneCreateState
    (Event.msg 0 ClientMsg.create_room)).1

/-- A store state in which key `AAAA1111` already names a room holding two
members and one history entry. -/
def collisionPre : ServerState :=
  ⟨[("AAAA1111", ⟨[1, 2], [⟨7, "hello", 5, "alice"⟩], 3⟩)],
   [(1, "AAAA1111"), (2, "AAAA1111")]⟩

/-- 51 distinct messages, for exercising the history bound. -/
def manyMsgs : List Msg :=
  (List.range 51).map (fun i => { id := i, text := "t", timestamp := i, sender := "s" })

/-- A state with one room of two members and three history messages, with
connection 1 and 2 bound to it and connection 3 idle. -/
def replayPre : ServerState :=
  ⟨[("CAFE0000", ⟨[1, 2], [⟨0, "a", 0, "x"⟩, ⟨1, "b", 1, "x"⟩, ⟨2, "c", 2, "y"⟩], 0⟩)],
   [(1, "CAFE0000"), (2, "CAFE0000")]⟩

/-- A state whose only binding names a key with no stored room (as arises
after a connection re-joins the room it occupied alone). -/
def staleBindingPre : ServerState :=
  ⟨[], [(0, "GONE0000")]⟩

section MapLemmas

variable {α β : Type} [DecidableEq α]

@[simp] theorem mapGet_nil (k : α) : mapGet ([] : List (α × β)) k = none := rfl


theorem mapGet_cons (a : α) (b : β) (m : List (α × β)) (k : α) :
    mapGet ((a, b) :: m) k = if a = k then some b else mapGet m k := by
  by_cases h : a = k
  · rw [if_pos h]
    unfold mapGet
    rw [List.find?_cons_of_pos _ (by simpa using h)]
    rfl
  · rw [if_neg h]
    unfold mapGet
    rw [List.find?_cons_of_neg _ (by simpa using h)]

@[simp] theorem mapGet_mapSet_self (m : List (α × β)) (k : α) (v : β) :
    mapGet (mapSet m k v) k = some v := by
  induction m with
  | nil => simp [mapSet, mapGet_cons]
  | cons p m ih =>
    obtain ⟨a, b⟩ := p
    by_cases h : a = k
    · simp [mapSet, h, mapGet_cons]
    · simp [mapSet, h, mapGet_cons, ih]

theorem mapGet_mapSet_ne (m : List (α × β)) (k k' : α) (v : β) (h : k' ≠ k) :
    mapGet (mapSet m k v) k' = mapGet m k' := by
  induction m with
  | nil => simp [mapSet, mapGet_cons, Ne.symm h]
  | cons p m ih =>
    obtain ⟨a, b⟩ := p
    by_cases ha : a = k
    · subst ha
      simp [mapSet, mapGet_cons, Ne.symm h]
    · simp [mapSet, ha, mapGet_cons, ih]

@[simp] theorem mapGet_mapDelete_self (m : List (α × β)) (k : α) :
    mapGet (mapDelete m k) k = none := by
  induction m with
  | nil => rfl
  | cons p m ih =>
    obtain ⟨a, b⟩ := p
    by_cases ha : a = k
    · simpa [mapDelete, ha] using ih
    · simpa [mapDelete, ha, mapGet_cons] using ih

theorem mapGet_mapDelete_ne (m : List (α × β)) (k k' : α) (h : k' ≠ k) :
    mapGet (mapDelete m k) k' = mapGet m k' := by
  induction m with
  | nil => rfl
  | cons p m ih =>
    obtain ⟨a, b⟩ := p
    by_cases ha : a = k
    · subst ha
      simpa [mapDelete, mapGet_cons, Ne.symm h] using ih
    · have hstep : mapDelete ((a, b) :: m) k = (a, b) :: mapDelete m k := by
        simp [mapDelete, ha]
      rw [hstep, mapGet_cons, mapGet_cons, ih]

theorem mapGet_mem {m : List (α × β)} {k : α} {v : β} (h : mapGet m k = some v) :
    (k, v) ∈ m := by
  induction m with
  | nil => simp [mapGet] at h
  | cons p m ih =>
    obtain ⟨a, b⟩ := p
    rw [mapGet_cons] at h
    by_cases ha : a = k
    · rw [if_pos ha] at h
      cases h
      simp [ha]
    · rw [if_neg ha] at h
      exact List.mem_cons_of_mem _ (ih h)

theorem mapGet_eq_none {m : List (α × β)} {k : α} :
    mapGet m k = none ↔ k ∉ m.map Prod.fst := by
  induction m with
  | nil => simp
  | cons p m ih =>
    obtain ⟨a, b⟩ := p
    rw [mapGet_cons]
    by_cases ha : a = k
    · subst ha
      simp
    · simp [ha, ih, Ne.symm ha]

theorem mem_keys_mapSet {m : List (α × β)} {k x : α} {v : β} :
    x ∈ (mapSet m k v).map Prod.fst ↔ x ∈ m.map Prod.fst ∨ x = k := by
  induction m with
  | nil => simp [mapSet]
  | cons p m ih =>
    obtain ⟨a, b⟩ := p
    by_cases ha : a = k
    · subst ha
      rw [show mapSet ((a, b) :: m) a v = (a, v) :: m from by simp [mapSet]]
      simp only [List.map_cons, List.mem_cons]
      tauto
    · simp only [mapSet, if_neg ha, List.map_cons, List.mem_cons, ih]
      tauto

theorem keys_mapSet_nodup {m : List (α × β)} (k : α) (v : β)
    (hnd : (m.map Prod.fst).Nodup) : ((mapSet m k v).map Prod.fst).Nodup := by
  induction m with
  | nil => simp [mapSet]
  | cons p m ih =>
    obtain ⟨a, b⟩ := p
    simp only [List.map_cons, List.nodup_cons] at hnd
    by_cases ha : a = k
    · subst ha
      rw [show mapSet ((a, b) :: m) a v = (a, v) :: m from by simp [mapSet]]
      simp only [List.map_cons, List.nodup_cons]
      exact hnd
    · simp only [mapSet, if_neg ha, List.map_cons, List.nodup_cons]
      refine ⟨?_, ih hnd.2⟩
      rw [mem_keys_mapSet]
      rintro (hmem | rfl)
      · exact hnd.1 hmem
      · exact ha rfl

theorem keys_mapDelete_nodup {m : List (α × β)} (k : α)
    (hnd : (m.map Prod.fst).Nodup) : ((mapDelete m k).map Prod.fst).Nodup :=
  ((List.filter_sublist m).map Prod.fst).nodup hnd

theorem mapGet_of_mem_nodup {m : List (α × β)} {k : α} {v : β}
    (hnd : (m.map Prod.fst).Nodup) (hmem : (k, v) ∈ m) : mapGet m k = some v := by
  induction m with
  | nil => simp at hmem
  | cons p m ih =>
    obtain ⟨a, b⟩ := p
    simp only [List.map_cons, List.nodup_cons] at hnd
    rcases List.mem_cons.mp hmem with heq | hmem'
    · cases heq
      simp [mapGet_cons]
    · rw [mapGet_cons]
      by_cases ha : a = k
      · subst ha
        exact absurd (List.mem_map.mpr ⟨(a, v), hmem', rfl⟩) hnd.1
      · rw [if_neg ha]
        exact ih hnd.2 hmem'

/-- On a well-formed map, pair membership and lookup coincide. -/
theorem mem_iff_mapGet {m : List (α × β)} {k : α} {v : β}
    (hnd : (m.map Prod.fst).Nodup) : (k, v) ∈ m ↔ mapGet m k = some v :=
  ⟨mapGet_of_mem_nodup hnd, mapGet_mem⟩

end MapLemmas

section SetLemmas

@[simp] theorem mem_setAdd {l : List Conn} {c x : Conn} :
    x ∈ setAdd l c ↔ x ∈ l ∨ x = c := by
  unfold setAdd
  by_cases h : c ∈ l
  · rw [if_pos h]
    constructor
    · exact Or.inl
    · rintro (hx | rfl)
      · exact hx
      · exact h
  · simp [if_neg h]

@[simp] theorem mem_setDelete {l : List Conn} {c x : Conn} :
    x ∈ setDelete l c ↔ x ∈ l ∧ x ≠ c := by
  simp [setDelete, List.mem_filter]

theorem setAdd_nodup {l : List Conn} (c : Conn) (h : l.Nodup) : (setAdd l c).Nodup := by
  unfold setAdd
  by_cases hc : c ∈ l
  · simpa [if_pos hc]
  · rw [if_neg hc]
    simpa [List.nodup_append] using ⟨h, fun hmem => hc hmem⟩

theorem setDelete_nodup {l : List Conn} (c : Conn) (h : l.Nodup) :
    (setDelete l c).Nodup :=
  (List.filter_sublist l).nodup h

theorem setDelete_eq_nil_iff {l : List Conn} {c : Conn} :
    setDelete l c = [] ↔ ∀ x ∈ l, x = c := by
  simp [setDelete, List.filter_eq_nil_iff]

end SetLemmas

section HistoryLemmas

theorem length_takeLast {α : Type} (n : Nat) (l : List α) :
    (takeLast n l).length = min n l.length := by
  simp only [takeLast, List.length_drop]
  omega

theorem takeLast_eq_self {α : Type} {n : Nat} {l : List α} (h : l.length ≤ n) :
    takeLast n l = l := by
  simp [takeLast, Nat.sub_eq_zero_of_le h]

theorem takeLast_append_left {α : Type} (n : Nat) (a b : List α) :
    takeLast n (takeLast n a ++ b) = takeLast n (a ++ b) := by
  unfold takeLast
  rw [← List.drop_append_of_le_length (Nat.sub_le _ _), List.drop_drop]
  congr 1
  simp only [List.length_append, List.length_drop]
  omega

theorem record_eq_takeLast (h : List Msg) (m : Msg) :
    record h m = takeLast 50 (h ++ [m]) := by
  unfold record
  by_cases hl : (h ++ [m]).length > 50
  · rw [if_pos hl]
  · rw [if_neg hl]
    exact (takeLast_eq_self (by omega)).symm

theorem foldl_record_eq (ms : List Msg) :
    ∀ h : List Msg, h.length ≤ 50 → List.foldl record h ms = takeLast 50 (h ++ ms) := by
  induction ms with
  | nil =>
    intro h hh
    simpa using (takeLast_eq_self hh).symm
  | cons m ms ih =>
    intro h hh
    rw [List.foldl_cons,
      ih (record h m) (by rw [record_eq_takeLast, length_takeLast]; omega),
      record_eq_takeLast, takeLast_append_left, List.append_assoc]
    rfl

end HistoryLemmas

/-- Claim C4: for every sequence of recorded messages, the history stays at
50 or fewer entries, and once more than 50 have been recorded it equals
exactly the most recent 50, oldest first. -/
theorem history_bounded (ms : List Msg) :
    (List.foldl record [] ms).length ≤ 50 ∧
      (ms.length > 50 → List.foldl record [] ms = takeLast 50 ms) := by
  have h := foldl_record_eq ms [] (by simp)
  simp only [List.nil_append] at h
  refine ⟨?_, fun _ => h⟩
  rw [h, length_takeLast]
  omega

theorem history_bounded_witness :
    manyMsgs.length > 50 ∧ (List.foldl record [] manyMsgs).length ≤ 50 ∧
      List.foldl record [] manyMsgs = takeLast 50 manyMsgs :=
  ⟨by decide, (history_bounded manyMsgs).1, (history_bounded manyMsgs).2 (by decide)⟩

/-- Claim C7: `join_room` with a key absent from the Room Store replies
with exactly one `join_error` (success `false`) to the requesting
connection and leaves the entire server state unchanged. -/
theorem join_unknown_key_no_change (op : Conn → Bool) (s : ServerState) (ws : Conn)
    (key : String) (hkey : mapGet s.rooms key = none) (hop : op ws = true) :
    handleJoinRoom op s ws key =
      (s, [(ws, ServerMsg.join_error "Room not found" false)]) := by
  simp [handleJoinRoom, hkey, sendToClient, hop]

theorem join_unknown_key_no_change_witness :
    mapGet replayPre.rooms "NOPE0000" = none ∧ allOpen 1 = true ∧
      handleJoinRoom allOpen replayPre 1 "NOPE0000" =
        (replayPre, [(1, ServerMsg.join_error "Room not found" false)]) :=
  ⟨by decide, rfl,
    join_unknown_key_no_change allOpen replayPre 1 "NOPE0000" (by decide) rfl⟩

/-- Claim C8: `send_message` from a connection with no binding replies with
a typed error to that connection only and changes nothing. -/
theorem send_while_idle_error_only (op : Conn → Bool) (o : Oracle) (s : ServerState)
    (ws : Conn) (text : String) (sd : Option String)
    (hidle : mapGet s.clientRooms ws = none) (hop : op ws = true) :
    handleSendMessage op o s ws text sd =
      (s, [(ws, ServerMsg.error "Not in a room" false)]) := by
  simp [handleSendMessage, hidle, sendToClient, hop]

theorem send_while_idle_error_only_witness :
    mapGet replayPre.clientRooms 3 = none ∧ allOpen 3 = true ∧
      handleSendMessage allOpen ⟨"", 9, 9⟩ replayPre 3 "hi" none =
        (replayPre, [(3, ServerMsg.error "Not in a room" false)]) :=
  ⟨by decide, rfl,
    send_while_idle_error_only allOpen ⟨"", 9, 9⟩ replayPre 3 "hi" none (by decide) rfl⟩

/-- Claim C10: `send_message` from a connection whose binding names a key
absent from the Room Store replies with a typed `Room not found` error and
changes nothing. -/
theorem send_stale_binding_error_only (op : Conn → Bool) (o : Oracle) (s : ServerState)
    (ws : Conn) (text : String) (sd : Option String) (k : String)
    (hb : mapGet s.clientRooms ws = some k) (hr : mapGet s.rooms k = none)
    (hop : op ws = true) :
    handleSendMessage op o s ws text sd =
      (s, [(ws, ServerMsg.error "Room not found" false)]) := by
  simp [handleSendMessage, hb, hr, sendToClient, hop]

theorem send_stale_binding_error_only_witness :
    mapGet staleBindingPre.clientRooms 0 = some "GONE0000" ∧
      mapGet staleBindingPre.rooms "GONE0000" = none ∧
      handleSendMessage allOpen ⟨"", 9, 9⟩ staleBindingPre 0 "hi" none =
        (staleBindingPre, [(0, ServerMsg.error "Room not found" false)]) :=
  ⟨by decide, by decide,
    send_stale_binding_error_only allOpen ⟨"", 9, 9⟩ staleBindingPre 0 "hi" none
      "GONE0000" (by decide) (by decide) rfl⟩

/-- Claim C9: `leave_room` is idempotent: a second `leave_room` issued
right after a first one finds the connection unbound, produces no output
at all (no notification, no reply, no error) and leaves the state exactly
as the first leave left it. -/
theorem leave_room_idempotent (op op' : Conn → Bool) (s : ServerState) (ws : Conn) :
    handleLeaveRoom op' (handleLeaveRoom op s ws true).1 ws true =
      ((handleLeaveRoom op s ws true).1, []) := by
  cases hb : mapGet s.clientRooms ws with
  | none => simp [handleLeaveRoom, hb]
  | some k =>
    cases hr : mapGet s.rooms k with
    | none => simp [handleLeaveRoom, hb, hr]
    | some room => simp [handleLeaveRoom, hb, hr]

theorem leave_room_idempotent_witness :
    handleLeaveRoom allOpen (handleLeaveRoom allOpen replayPre 1 true).1 1 true =
      ((handleLeaveRoom allOpen replayPre 1 true).1, []) :=
  leave_room_idempotent allOpen allOpen replayPre 1

/-- Counterexample to claim C1: connection 0 is in room `AAAA1111` (it is
the sole member and is bound to it); it processes `create_room`, which
generates `BBBB2222`.  Afterwards it is still a member of the old room —
the old room was neither emptied nor deleted — while its binding names the
new room, so it is not "a member of the new room only". -/
theorem create_room_no_leave_counterexample :
    mapGet oneCreateState.clientRooms 0 = some "AAAA1111" ∧
    mapGet oneCreateState.rooms "AAAA1111" = some ⟨[0], [], 0⟩ ∧
    mapGet twoCreatesState.rooms "AAAA1111" = some ⟨[0], [], 0⟩ ∧
    mapGet twoCreatesState.rooms "BBBB2222" = some ⟨[0], [], 1⟩ ∧
    mapGet twoCreatesState.clientRooms 0 = some "BBBB2222" ∧
    (0 : Conn) ∈ (⟨[0], [], 0⟩ : Room).clients := by
  decide

/-- Claim C1 (amended): processing `create_room` executes none of the
`leave_room` side effects.  The old room's entry (its member set included)
is bitwise unchanged, no message is sent to anyone but the creator, the old
room is not deleted, and the connection's binding is simply overwritten
with the new key — so the connection ends up a member of both rooms. -/
theorem create_room_keeps_old_membership (op : Conn → Bool) (o : Oracle)
    (s : ServerState) (ws : Conn) (oldKey : String) (oldRoom : Room)
    (hb : mapGet s.clientRooms ws = some oldKey)
    (hr : mapGet s.rooms oldKey = some oldRoom)
    (hne : oldKey ≠ o.freshKey) :
    mapGet (handleCreateRoom op o s ws).1.rooms oldKey = some oldRoom ∧
    mapGet (handleCreateRoom op o s ws).1.rooms o.freshKey =
      some ⟨[ws], [], o.now⟩ ∧
    mapGet (handleCreateRoom op o s ws).1.clientRooms ws = some o.freshKey ∧
    ∀ p ∈ (handleCreateRoom op o s ws).2, p.1 = ws := by
  refine ⟨?_, ?_, ?_, ?_⟩
  · simpa [handleCreateRoom] using (mapGet_mapSet_ne s.rooms o.freshKey oldKey _ hne).trans hr
  · simp [handleCreateRoom]
  · simp [handleCreateRoom]
  · intro p hp
    simp only [handleCreateRoom, sendToClient] at hp
    by_cases hop : op ws = true
    · rw [if_pos hop] at hp
      simp only [List.mem_singleton] at hp
      rw [hp]
    · rw [if_neg hop] at hp
      simp at hp

theorem create_room_keeps_old_membership_witness :
    mapGet oneCreateState.clientRooms 0 = some "AAAA1111" ∧
    mapGet twoCreatesState.rooms "AAAA1111" = some ⟨[0], [], 0⟩ ∧
    mapGet twoCreatesState.rooms "BBBB2222" = some ⟨[0], [], 1⟩ ∧
    mapGet twoCreatesState.clientRooms 0 = some "BBBB2222" ∧
    ∀ p ∈ (handleCreateRoom allOpen ⟨"BBBB2222", 1, 1⟩ oneCreateState 0).2, p.1 = 0 :=
  ⟨by decide,
    (create_room_keeps_old_membership allOpen ⟨"BBBB2222", 1, 1⟩ oneCreateState 0
      "AAAA1111" ⟨[0], [], 0⟩ (by decide) (by decide) (by decide)).1,
    (create_room_keeps_old_membership allOpen ⟨"BBBB2222", 1, 1⟩ oneCreateState 0
      "AAAA1111" ⟨[0], [], 0⟩ (by decide) (by decide) (by decide)).2.1,
    (create_room_keeps_old_membership allOpen ⟨"BBBB2222", 1, 1⟩ oneCreateState 0
      "AAAA1111" ⟨[0], [], 0⟩ (by decide) (by decide) (by decide)).2.2.1,
    (create_room_keeps_old_membership allOpen ⟨"BBBB2222", 1, 1⟩ oneCreateState 0
      "AAAA1111" ⟨[0], [], 0⟩ (by decide) (by decide) (by decide)).2.2.2⟩

/-- Counterexample to claim C3: `collisionPre` stores, under `AAAA1111`, a
room with members 1 and 2 and one history message.  Connection 0 processes
`create_room` while the key generator returns exactly `AAAA1111`: the
existing room's state is silently replaced by a fresh one-member room —
there is no existence check and no retry. -/
theorem create_collision_counterexample :
    mapGet collisionPre.rooms "AAAA1111" =
      some ⟨[1, 2], [⟨7, "hello", 5, "alice"⟩], 3⟩ ∧
    mapGet (handleCreateRoom allOpen ⟨"AAAA1111", 9, 9⟩ collisionPre 0).1.rooms
        "AAAA1111" = some ⟨[0], [], 9⟩ := by
  decide

/-- Claim C3 (amended): room creation performs no collision check: the
generated key is bound unconditionally, so when it already names a stored
room — members and history included — that room is silently replaced by
the new single-member room with empty history. -/
theorem create_room_overwrites (op : Conn → Bool) (o : Oracle) (s : ServerState)
    (ws : Conn) (oldRoom : Room)
    (hcol : mapGet s.rooms o.freshKey = some oldRoom) :
    mapGet (handleCreateRoom op o s ws).1.rooms o.freshKey =
      some { clients := [ws], messages := [], createdAt := o.now } := by
  simp [handleCreateRoom]

theorem create_room_overwrites_witness :
    mapGet collisionPre.rooms "AAAA1111" =
      some ⟨[1, 2], [⟨7, "hello", 5, "alice"⟩], 3⟩ ∧
    mapGet (handleCreateRoom allOpen ⟨"AAAA1111", 9, 9⟩ collisionPre 0).1.rooms
        "AAAA1111" = some ⟨[0], [], 9⟩ :=
  ⟨by decide,
    create_room_overwrites allOpen ⟨"AAAA1111", 9, 9⟩ collisionPre 0
      ⟨[1, 2], [⟨7, "hello", 5, "alice"⟩], 3⟩ (by decide)⟩

theorem broadcast_excludes_sender {op : Conn → Bool} {rooms : List (String × Room)}
    {roomId : String} {m : ServerMsg} {sender : Conn} {p : Conn × ServerMsg}
    (hp : p ∈ broadcastToRoom op rooms roomId m sender) : p.1 ≠ sender := by
  unfold broadcastToRoom at hp
  cases h : mapGet rooms roomId with
  | none => rw [h] at hp; simp at hp
  | some room =>
    rw [h] at hp
    rcases List.mem_map.mp hp with ⟨c, hc, rfl⟩
    have hfil := (List.mem_filter.mp hc).2
    simp only [Bool.and_eq_true, decide_eq_true_eq] at hfil
    exact hfil.1

/-- Claim C5: a connection successfully joining a room whose history holds
`historyLength` messages is sent — immediately after its `room_joined`
reply and to itself only — exactly `min 10 historyLength` messages, namely
the most recent ones in recording order (oldest of the retained ones
first); everything else in the output batch is addressed to other
connections. -/
theorem join_replays_recent_history (op : Conn → Bool) (s : ServerState) (ws : Conn)
    (key : String) (room : Room) (hroom : mapGet s.rooms key = some room)
    (hop : op ws = true) :
    ∃ cnt tail,
      (handleJoinRoom op s ws key).2 =
        (ws, ServerMsg.room_joined key true cnt)
          :: ((takeLast 10 room.messages).map (fun m => (ws, ServerMsg.message m)) ++ tail) ∧
      (∀ p ∈ tail, p.1 ≠ ws) ∧
      (takeLast 10 room.messages).length = min 10 room.messages.length := by
  simp only [handleJoinRoom, hroom, sendToClient, hop, if_pos]
  refine ⟨_, _, rfl, ?_, length_takeLast 10 room.messages⟩
  intro p hp
  exact broadcast_excludes_sender hp

theorem join_replays_recent_history_witness :
    mapGet replayPre.rooms "CAFE0000" =
      some ⟨[1, 2], [⟨0, "a", 0, "x"⟩, ⟨1, "b", 1, "x"⟩, ⟨2, "c", 2, "y"⟩], 0⟩ ∧
    ∃ cnt tail,
      (handleJoinRoom allOpen replayPre 3 "CAFE0000").2 =
        (3, ServerMsg.room_joined "CAFE0000" true cnt)
          :: (((takeLast 10 [⟨0, "a", 0, "x"⟩, ⟨1, "b", 1, "x"⟩, ⟨2, "c", 2, "y"⟩]).map
                (fun m => ((3 : Conn), ServerMsg.message m)) ++ tail)) ∧
      (∀ p ∈ tail, p.1 ≠ 3) ∧
      (takeLast 10 (⟨[1, 2], [⟨0, "a", 0, "x"⟩, ⟨1, "b", 1, "x"⟩, ⟨2, "c", 2, "y"⟩], 0⟩ :
          Room).messages).length =
        min 10 (⟨[1, 2], [⟨0, "a", 0, "x"⟩, ⟨1, "b", 1, "x"⟩, ⟨2, "c", 2, "y"⟩], 0⟩ :
          Room).messages.length :=
  ⟨by decide,
    join_replays_recent_history allOpen replayPre 3 "CAFE0000"
      ⟨[1, 2], [⟨0, "a", 0, "x"⟩, ⟨1, "b", 1, "x"⟩, ⟨2, "c", 2, "y"⟩], 0⟩ (by decide) rfl⟩

section CountLemmas

theorem deliveredCount_nil (c : Conn) (pr : ServerMsg → Bool) :
    deliveredCount [] c pr = 0 := rfl

theorem deliveredCount_cons (p : Conn × ServerMsg) (out : List (Conn × ServerMsg))
    (c : Conn) (pr : ServerMsg → Bool) :
    deliveredCount (p :: out) c pr =
      (if p.1 = c ∧ pr p.2 = true then 1 else 0) + deliveredCount out c pr := by
  unfold deliveredCount
  by_cases h : p.1 = c ∧ pr p.2 = true
  · rw [List.filter_cons_of_pos (by simp [h.1, h.2])]
    simp [h, Nat.add_comm]
  · rw [List.filter_cons_of_neg (by simpa using h)]
    simp [h]

theorem deliveredCount_append (a b : List (Conn × ServerMsg)) (c : Conn)
    (pr : ServerMsg → Bool) :
    deliveredCount (a ++ b) c pr = deliveredCount a c pr + deliveredCount b c pr := by
  unfold deliveredCount
  rw [List.filter_append, List.length_append]

theorem deliveredCount_eq_zero {out : List (Conn × ServerMsg)} {c : Conn}
    {pr : ServerMsg → Bool} (h : ∀ p ∈ out, pr p.2 = false) :
    deliveredCount out c pr = 0 := by
  unfold deliveredCount
  rw [List.length_eq_zero, List.filter_eq_nil_iff]
  intro p hp
  simp [h p hp]

theorem deliveredCount_filter_map (l : List Conn) (hnd : l.Nodup) (q : Conn → Bool)
    (msg : ServerMsg) (c : Conn) (pr : ServerMsg → Bool) :
    deliveredCount ((l.filter q).map (fun x => (x, msg))) c pr =
      if c ∈ l ∧ q c = true ∧ pr msg = true then 1 else 0 := by
  induction l with
  | nil => simp [deliveredCount]
  | cons x l ih =>
    simp only [List.nodup_cons] at hnd
    have ihl := ih hnd.2
    by_cases hq : q x = true
    · rw [List.filter_cons_of_pos hq, List.map_cons, deliveredCount_cons, ihl]
      by_cases hx : x = c
      · subst hx
        by_cases hpr : pr msg = true
        · rw [if_pos ⟨rfl, hpr⟩, if_neg (fun h => hnd.1 h.1),
            if_pos ⟨List.mem_cons_self _ _, hq, hpr⟩]
        · rw [if_neg (by tauto), if_neg (by tauto), if_neg (by tauto)]
      · rw [if_neg (by tauto)]
        by_cases hc : c ∈ l ∧ q c = true ∧ pr msg = true
        · rw [if_pos hc, if_pos ⟨List.mem_cons_of_mem _ hc.1, hc.2⟩]
        · rw [if_neg hc, if_neg ?_]
          rintro ⟨hm, rest⟩
          rcases List.mem_cons.mp hm with h | h
          · exact hx h.symm
          · exact hc ⟨h, rest⟩
    · rw [List.filter_cons_of_neg (by simpa using hq), ihl]
      by_cases hx : x = c
      · subst hx
        rw [if_neg (fun h => hnd.1 h.1), if_neg (by tauto)]
      · by_cases hc : c ∈ l ∧ q c = true ∧ pr msg = true
        · rw [if_pos hc, if_pos ⟨List.mem_cons_of_mem _ hc.1, hc.2⟩]
        · rw [if_neg hc, if_neg ?_]
          rintro ⟨hm, rest⟩
          rcases List.mem_cons.mp hm with h | h
          · exact hx h.symm
          · exact hc ⟨h, rest⟩

end CountLemmas

/-- Claim C6: a `send_message` broadcast hands exactly one copy of the chat
message to every member with an open transport, the sender included; the
`participant_left` notification of `leave_room` and the
`participant_joined` notification of `join_room` are each delivered exactly
once to every open member except the connection that triggered the event,
and never to the trigger. -/
theorem broadcast_delivery_policy (op : Conn → Bool) (o : Oracle) (s : ServerState)
    (ws v : Conn) (rid key : String) (room roomJ : Room)
    (t : String) (sd : Option String)
    (hb : mapGet s.clientRooms ws = some rid)
    (hr : mapGet s.rooms rid = some room)
    (hnd : room.clients.Nodup)
    (hvb : mapGet s.clientRooms v = none)
    (hkr : mapGet s.rooms key = some roomJ)
    (hvnd : roomJ.clients.Nodup) :
    (∀ c, deliveredCount (handleSendMessage op o s ws t sd).2 c isChat =
        if c ∈ room.clients ∧ op c = true then 1 else 0) ∧
    (∀ c, deliveredCount (handleLeaveRoom op s ws true).2 c isPLeft =
        if c ∈ room.clients ∧ c ≠ ws ∧ op c = true then 1 else 0) ∧
    (∀ c, deliveredCount (handleJoinRoom op s v key).2 c isPJoined =
        if c ∈ roomJ.clients ∧ c ≠ v ∧ op c = true then 1 else 0) := by
  refine ⟨?_, ?_, ?_⟩
  · intro c
    have hout : (handleSendMessage op o s ws t sd).2 =
        (room.clients.filter op).map (fun x =>
          (x, ServerMsg.message ⟨o.freshId, t, o.now, senderOrDefault sd⟩)) := by
      simp [handleSendMessage, hb, hr]
    rw [hout, deliveredCount_filter_map room.clients hnd op _ c isChat]
    exact if_congr (by simp [isChat]) rfl rfl
  · intro c
    have hout : (handleLeaveRoom op s ws true).2 =
        ((setDelete room.clients ws).filter (fun x => decide (¬ x = ws) && op x)).map
            (fun x => (x, ServerMsg.participant_left (setDelete room.clients ws).length))
          ++ (if op ws then [(ws, ServerMsg.room_left true)] else []) := by
      simp [handleLeaveRoom, hb, hr, broadcastToRoom, mapGet_mapSet_self, sendToClient]
    rw [hout, deliveredCount_append,
      deliveredCount_filter_map _ (setDelete_nodup ws hnd) _ _ c isPLeft,
      @deliveredCount_eq_zero (if op ws then [(ws, ServerMsg.room_left true)] else []) c isPLeft
        (by intro p hp; by_cases hw : op ws = true
            · rw [if_pos hw] at hp
              simp only [List.mem_singleton] at hp
              rw [hp]
              rfl
            · rw [if_neg hw] at hp
              simp at hp)]
    rw [Nat.add_zero]
    refine if_congr ?_ rfl rfl
    simp only [mem_setDelete, Bool.and_eq_true, decide_eq_true_eq, isPLeft]
    tauto
  · intro c
    have hout : (handleJoinRoom op s v key).2 =
        (if op v then [(v, ServerMsg.room_joined key true (setAdd roomJ.clients v).length)]
          else [])
          ++ ((if op v then (takeLast 10 roomJ.messages).map
                (fun m => (v, ServerMsg.message m)) else [])
          ++ ((setAdd roomJ.clients v).filter (fun x => decide (¬ x = v) && op x)).map
              (fun x => (x, ServerMsg.participant_joined (setAdd roomJ.clients v).length))) := by
      simp [handleJoinRoom, hkr, hvb, broadcastToRoom, mapGet_mapSet_self, sendToClient]
    rw [hout, deliveredCount_append, deliveredCount_append,
      deliveredCount_filter_map _ (setAdd_nodup v hvnd) _ _ c isPJoined,
      @deliveredCount_eq_zero (if op v then
          [(v, ServerMsg.room_joined key true (setAdd roomJ.clients v).length)] else [])
        c isPJoined
        (by intro p hp; by_cases hw : op v = true
            · rw [if_pos hw] at hp
              simp only [List.mem_singleton] at hp
              rw [hp]
              rfl
            · rw [if_neg hw] at hp
              simp at hp),
      @deliveredCount_eq_zero (if op v then (takeLast 10 roomJ.messages).map
          (fun m => (v, ServerMsg.message m)) else []) c isPJoined
        (by intro p hp; by_cases hw : op v = true
            · rw [if_pos hw] at hp
              rcases List.mem_map.mp hp with ⟨m, _, rfl⟩
              rfl
            · rw [if_neg hw] at hp
              simp at hp)]
    rw [Nat.zero_add, Nat.zero_add]
    refine if_congr ?_ rfl rfl
    simp only [mem_setAdd, Bool.and_eq_true, decide_eq_true_eq, isPJoined]
    tauto

theorem broadcast_delivery_policy_witness :
    (deliveredCount (handleSendMessage allOpen ⟨"", 9, 9⟩ replayPre 1 "hi" none).2 1 isChat
        = 1) ∧
    (deliveredCount (handleSendMessage allOpen ⟨"", 9, 9⟩ replayPre 1 "hi" none).2 2 isChat
        = 1) ∧
    (deliveredCount (handleLeaveRoom allOpen replayPre 1 true).2 1 isPLeft = 0) ∧
    (deliveredCount (handleLeaveRoom allOpen replayPre 1 true).2 2 isPLeft = 1) ∧
    (deliveredCount (handleJoinRoom allOpen replayPre 3 "CAFE0000").2 3 isPJoined = 0) ∧
    (deliveredCount (handleJoinRoom allOpen replayPre 3 "CAFE0000").2 1 isPJoined = 1) := by
  have h := broadcast_delivery_policy allOpen ⟨"", 9, 9⟩ replayPre 1 3 "CAFE0000" "CAFE0000"
    ⟨[1, 2], [⟨0, "a", 0, "x"⟩, ⟨1, "b", 1, "x"⟩, ⟨2, "c", 2, "y"⟩], 0⟩
    ⟨[1, 2], [⟨0, "a", 0, "x"⟩, ⟨1, "b", 1, "x"⟩, ⟨2, "c", 2, "y"⟩], 0⟩
    "hi" none (by decide) (by decide) (by decide) (by decide) (by decide) (by decide)
  refine ⟨?_, ?_, ?_, ?_, ?_, ?_⟩
  · rw [h.1 1]; decide
  · rw [h.1 2]; decide
  · rw [h.2.1 1]; decide
  · rw [h.2.1 2]; decide
  · rw [h.2.2 3]; decide
  · rw [h.2.2 1]; decide

/-- Counterexample to claim C2 as stated: after two consecutive
`create_room` envelopes from connection 0 — a reachable sequence — room
`AAAA1111` still counts connection 0 among its members while the index
binds 0 to `BBBB2222`, so the two structures disagree. -/
theorem store_index_agreement_counterexample :
    Reachable twoCreatesState ∧ ¬ Agrees twoCreatesState := by
  constructor
  · have h1 : Reachable oneCreateState :=
      ReachableP.step (Event.msg 0 ClientMsg.create_room) ⟨"AAAA1111", 0, 0⟩ allOpen
        ReachableP.init trivial
    exact ReachableP.step (Event.msg 0 ClientMsg.create_room) ⟨"BBBB2222", 1, 1⟩ allOpen
      h1 trivial
  · intro h
    have h0 := (h "AAAA1111" ⟨[0], [], 0⟩ (by decide) 0).mp (by decide)
    exact absurd h0 (by decide)

section StateShapeLemmas

theorem joinRoom_state_idle (op : Conn → Bool) (s : ServerState) (ws : Conn)
    (key : String) (exRoom : Room) (hr : mapGet s.rooms key = some exRoom)
    (hb : mapGet s.clientRooms ws = none) :
    (handleJoinRoom op s ws key).1 =
      ⟨mapSet s.rooms key { exRoom with clients := setAdd exRoom.clients ws },
       mapSet s.clientRooms ws key⟩ := by
  simp [handleJoinRoom, hr, hb]

theorem joinRoom_state_rejoin (op : Conn → Bool) (s : ServerState) (ws : Conn)
    (key : String) (exRoom : Room) (hr : mapGet s.rooms key = some exRoom)
    (hb : mapGet s.clientRooms ws = some key)
    (hne : setDelete exRoom.clients ws ≠ []) :
    (handleJoinRoom op s ws key).1 =
      ⟨mapSet (mapSet s.rooms key { exRoom with clients := setDelete exRoom.clients ws })
          key { exRoom with clients := setAdd (setDelete exRoom.clients ws) ws },
       mapSet s.clientRooms ws key⟩ := by
  have hlen : ¬ (setDelete exRoom.clients ws).length = 0 := by
    simpa [List.length_eq_zero] using hne
  simp [handleJoinRoom, hr, hb, hlen, mapGet_mapSet_self]

theorem joinRoom_state_other (op : Conn → Bool) (s : ServerState) (ws : Conn)
    (key : String) (exRoom : Room) (cur : String) (room : Room)
    (hr : mapGet s.rooms key = some exRoom)
    (hb : mapGet s.clientRooms ws = some cur)
    (hcur : cur ≠ key)
    (hcr : mapGet s.rooms cur = some room) :
    (handleJoinRoom op s ws key).1 =
      ⟨mapSet (if (setDelete room.clients ws).length = 0
            then mapDelete s.rooms cur
            else mapSet s.rooms cur { room with clients := setDelete room.clients ws })
          key { exRoom with clients := setAdd exRoom.clients ws },
       mapSet s.clientRooms ws key⟩ := by
  by_cases hrem : (setDelete room.clients ws).length = 0
  · have hget : mapGet (mapDelete s.rooms cur) key = some exRoom := by
      rw [mapGet_mapDelete_ne _ _ _ (Ne.symm hcur)]
      exact hr
    simp [handleJoinRoom, hr, hb, hcur, hcr, hrem, hget]
  · have hget : mapGet (mapSet s.rooms cur { room with clients := setDelete room.clients ws })
        key = some exRoom := by
      rw [mapGet_mapSet_ne _ _ _ _ (Ne.symm hcur)]
      exact hr
    simp [handleJoinRoom, hr, hb, hcur, hcr, hrem, hget]

theorem leaveRoom_state (op : Conn → Bool) (s : ServerState) (ws : Conn) (reply : Bool)
    (rid : String) (room : Room)
    (hb : mapGet s.clientRooms ws = some rid)
    (hr : mapGet s.rooms rid = some room) :
    (handleLeaveRoom op s ws reply).1 =
      ⟨(if (setDelete room.clients ws).length = 0
          then mapDelete
            (mapSet s.rooms rid { room with clients := setDelete room.clients ws }) rid
          else mapSet s.rooms rid { room with clients := setDelete room.clients ws }),
       mapDelete s.clientRooms ws⟩ := by
  by_cases hrem : (setDelete room.clients ws).length = 0
  · simp [handleLeaveRoom, hb, hr, hrem]
  · simp [handleLeaveRoom, hb, hr, hrem]

theorem sendMessage_state (op : Conn → Bool) (o : Oracle) (s : ServerState) (ws : Conn)
    (t : String) (sd : Option String) (rid : String) (room : Room)
    (hb : mapGet s.clientRooms ws = some rid)
    (hr : mapGet s.rooms rid = some room) :
    (handleSendMessage op o s ws t sd).1 =
      ⟨mapSet s.rooms rid
          { room with messages :=
              (record room.messages ⟨o.freshId, t, o.now, senderOrDefault sd⟩) },
       s.clientRooms⟩ := by
  simp [handleSendMessage, hb, hr]

end StateShapeLemmas

section InvPreservation

theorem inv_create (op : Conn → Bool) (o : Oracle) (s : ServerState) (ws : Conn)
    (hInv : Inv s)
    (hidle : mapGet s.clientRooms ws = none)
    (hfresh : mapGet s.rooms o.freshKey = none) :
    Inv (handleCreateRoom op o s ws).1 := by
  obtain ⟨h1, h2, h3, h4, h5⟩ := hInv
  have hstate : (handleCreateRoom op o s ws).1 =
      ⟨mapSet s.rooms o.freshKey ⟨[ws], [], o.now⟩, mapSet s.clientRooms ws o.freshKey⟩ := by
    simp [handleCreateRoom]
  rw [hstate]
  refine ⟨keys_mapSet_nodup _ _ h1, keys_mapSet_nodup _ _ h2, ?_, ?_, ?_⟩
  · intro k r hk
    by_cases hkey : k = o.freshKey
    · subst hkey
      rw [mapGet_mapSet_self] at hk
      cases hk
      simp
    · rw [mapGet_mapSet_ne _ _ _ _ hkey] at hk
      exact h3 k r hk
  · intro k r hk c hc
    by_cases hkey : k = o.freshKey
    · subst hkey
      rw [mapGet_mapSet_self] at hk
      cases hk
      simp only [List.mem_singleton] at hc
      subst hc
      exact mapGet_mapSet_self _ _ _
    · rw [mapGet_mapSet_ne _ _ _ _ hkey] at hk
      have hcb := h4 k r hk c hc
      have hcw : c ≠ ws := by
        intro hcw
        subst hcw
        rw [hidle] at hcb
        simp at hcb
      rw [mapGet_mapSet_ne _ _ _ _ hcw]
      exact hcb
  · intro c k hc
    by_cases hcw : c = ws
    · subst hcw
      rw [mapGet_mapSet_self] at hc
      cases hc
      exact ⟨⟨[c], [], o.now⟩, mapGet_mapSet_self _ _ _, by simp⟩
    · rw [mapGet_mapSet_ne _ _ _ _ hcw] at hc
      obtain ⟨r, hrk, hcm⟩ := h5 c k hc
      have hkK : k ≠ o.freshKey := by
        intro hkK
        subst hkK
        rw [hfresh] at hrk
        simp at hrk
      exact ⟨r, by rw [mapGet_mapSet_ne _ _ _ _ hkK]; exact hrk, hcm⟩

theorem inv_send (op : Conn → Bool) (o : Oracle) (s : ServerState) (ws : Conn)
    (t : String) (sd : Option String) (hInv : Inv s) :
    Inv (handleSendMessage op o s ws t sd).1 := by
  obtain ⟨h1, h2, h3, h4, h5⟩ := hInv
  cases hb : mapGet s.clientRooms ws with
  | none =>
    rw [show (handleSendMessage op o s ws t sd).1 = s by simp [handleSendMessage, hb]]
    exact ⟨h1, h2, h3, h4, h5⟩
  | some rid =>
    cases hr : mapGet s.rooms rid with
    | none =>
      rw [show (handleSendMessage op o s ws t sd).1 = s by simp [handleSendMessage, hb, hr]]
      exact ⟨h1, h2, h3, h4, h5⟩
    | some room =>
      rw [sendMessage_state op o s ws t sd rid room hb hr]
      refine ⟨keys_mapSet_nodup _ _ h1, h2, ?_, ?_, ?_⟩
      · intro k r hk
        by_cases hkey : k = rid
        · subst hkey
          rw [mapGet_mapSet_self] at hk
          cases hk
          exact h3 k room hr
        · rw [mapGet_mapSet_ne _ _ _ _ hkey] at hk
          exact h3 k r hk
      · intro k r hk c hc
        by_cases hkey : k = rid
        · subst hkey
          rw [mapGet_mapSet_self] at hk
          cases hk
          exact h4 k room hr c hc
        · rw [mapGet_mapSet_ne _ _ _ _ hkey] at hk
          exact h4 k r hk c hc
      · intro c k hc
        obtain ⟨r, hrk, hcm⟩ := h5 c k hc
        by_cases hkey : k = rid
        · subst hkey
          rw [hr] at hrk
          cases hrk
          exact ⟨_, mapGet_mapSet_self _ _ _, hcm⟩
        · exact ⟨r, by rw [mapGet_mapSet_ne _ _ _ _ hkey]; exact hrk, hcm⟩

theorem inv_leave (op : Conn → Bool) (s : ServerState) (ws : Conn) (reply : Bool)
    (hInv : Inv s) : Inv (handleLeaveRoom op s ws reply).1 := by
  obtain ⟨h1, h2, h3, h4, h5⟩ := hInv
  cases hb : mapGet s.clientRooms ws with
  | none =>
    rw [show (handleLeaveRoom op s ws reply).1 = s by simp [handleLeaveRoom, hb]]
    exact ⟨h1, h2, h3, h4, h5⟩
  | some rid =>
    obtain ⟨room, hr, hm⟩ := h5 ws rid hb
    rw [leaveRoom_state op s ws reply rid room hb hr]
    by_cases hrem : (setDelete room.clients ws).length = 0
    · rw [if_pos hrem]
      refine ⟨keys_mapDelete_nodup _ (keys_mapSet_nodup _ _ h1),
        keys_mapDelete_nodup _ h2, ?_, ?_, ?_⟩
      · intro k r hk
        by_cases hkey : k = rid
        · subst hkey
          rw [mapGet_mapDelete_self] at hk
          simp at hk
        · rw [mapGet_mapDelete_ne _ _ _ hkey, mapGet_mapSet_ne _ _ _ _ hkey] at hk
          exact h3 k r hk
      · intro k r hk c hc
        by_cases hkey : k = rid
        · subst hkey
          rw [mapGet_mapDelete_self] at hk
          simp at hk
        · rw [mapGet_mapDelete_ne _ _ _ hkey, mapGet_mapSet_ne _ _ _ _ hkey] at hk
          have hcb := h4 k r hk c hc
          have hcw : c ≠ ws := by
            intro hcw
            subst hcw
            rw [hb] at hcb
            cases hcb
            exact hkey rfl
          rw [mapGet_mapDelete_ne _ _ _ hcw]
          exact hcb
      · intro c k hc
        have hcw : c ≠ ws := by
          intro hcw
          subst hcw
          rw [mapGet_mapDelete_self] at hc
          simp at hc
        rw [mapGet_mapDelete_ne _ _ _ hcw] at hc
        obtain ⟨r, hrk, hcm⟩ := h5 c k hc
        by_cases hkey : k = rid
        · subst hkey
          rw [hr] at hrk
          cases hrk
          have : c ∈ setDelete room.clients ws := mem_setDelete.mpr ⟨hcm, hcw⟩
          rw [List.length_eq_zero] at hrem
          rw [hrem] at this
          simp at this
        · exact ⟨r, by
            rw [mapGet_mapDelete_ne _ _ _ hkey, mapGet_mapSet_ne _ _ _ _ hkey]
            exact hrk, hcm⟩
    · rw [if_neg hrem]
      refine ⟨keys_mapSet_nodup _ _ h1, keys_mapDelete_nodup _ h2, ?_, ?_, ?_⟩
      · intro k r hk
        by_cases hkey : k = rid
        · subst hkey
          rw [mapGet_mapSet_self] at hk
          cases hk
          exact setDelete_nodup ws (h3 k room hr)
        · rw [mapGet_mapSet_ne _ _ _ _ hkey] at hk
          exact h3 k r hk
      · intro k r hk c hc
        by_cases hkey : k = rid
        · subst hkey
          rw [mapGet_mapSet_self] at hk
          cases hk
          obtain ⟨hcm, hcw⟩ := mem_setDelete.mp hc
          rw [mapGet_mapDelete_ne _ _ _ hcw]
          exact h4 k room hr c hcm
        · rw [mapGet_mapSet_ne _ _ _ _ hkey] at hk
          have hcb := h4 k r hk c hc
          have hcw : c ≠ ws := by
            intro hcw
            subst hcw
            rw [hb] at hcb
            cases hcb
            exact hkey rfl
          rw [mapGet_mapDelete_ne _ _ _ hcw]
          exact hcb
      · intro c k hc
        have hcw : c ≠ ws := by
          intro hcw
          subst hcw
          rw [mapGet_mapDelete_self] at hc
          simp at hc
        rw [mapGet_mapDelete_ne _ _ _ hcw] at hc
        obtain ⟨r, hrk, hcm⟩ := h5 c k hc
        by_cases hkey : k = rid
        · subst hkey
          rw [hr] at hrk
          cases hrk
          exact ⟨_, mapGet_mapSet_self _ _ _, mem_setDelete.mpr ⟨hcm, hcw⟩⟩
        · exact ⟨r, by rw [mapGet_mapSet_ne _ _ _ _ hkey]; exact hrk, hcm⟩

theorem inv_join_idle (op : Conn → Bool) (s : ServerState) (ws : Conn) (key : String)
    (exRoom : Room) (hr : mapGet s.rooms key = some exRoom)
    (hb : mapGet s.clientRooms ws = none) (hInv : Inv s) :
    Inv (handleJoinRoom op s ws key).1 := by
  obtain ⟨h1, h2, h3, h4, h5⟩ := hInv
  rw [joinRoom_state_idle op s ws key exRoom hr hb]
  refine ⟨keys_mapSet_nodup _ _ h1, keys_mapSet_nodup _ _ h2, ?_, ?_, ?_⟩
  · intro k r hk
    by_cases hkey : k = key
    · subst hkey
      rw [mapGet_mapSet_self] at hk
      cases hk
      exact setAdd_nodup ws (h3 k exRoom hr)
    · rw [mapGet_mapSet_ne _ _ _ _ hkey] at hk
      exact h3 k r hk
  · intro k r hk c hc
    by_cases hkey : k = key
    · subst hkey
      rw [mapGet_mapSet_self] at hk
      cases hk
      rcases mem_setAdd.mp hc with hcm | hceq
      · have hcb := h4 k exRoom hr c hcm
        have hcw : c ≠ ws := by
          intro hcw
          subst hcw
          rw [hb] at hcb
          simp at hcb
        rw [mapGet_mapSet_ne _ _ _ _ hcw]
        exact hcb
      · subst hceq
        exact mapGet_mapSet_self _ _ _
    · rw [mapGet_mapSet_ne _ _ _ _ hkey] at hk
      have hcb := h4 k r hk c hc
      have hcw : c ≠ ws := by
        intro hcw
        subst hcw
        rw [hb] at hcb
        simp at hcb
      rw [mapGet_mapSet_ne _ _ _ _ hcw]
      exact hcb
  · intro c k hc
    by_cases hcw : c = ws
    · subst hcw
      rw [mapGet_mapSet_self] at hc
      cases hc
      exact ⟨_, mapGet_mapSet_self _ _ _, by simp⟩
    · rw [mapGet_mapSet_ne _ _ _ _ hcw] at hc
      obtain ⟨r, hrk, hcm⟩ := h5 c k hc
      by_cases hkey : k = key
      · subst hkey
        rw [hr] at hrk
        cases hrk
        exact ⟨_, mapGet_mapSet_self _ _ _, by simp [hcm]⟩
      · exact ⟨r, by rw [mapGet_mapSet_ne _ _ _ _ hkey]; exact hrk, hcm⟩

theorem inv_join_rejoin (op : Conn → Bool) (s : ServerState) (ws : Conn) (key : String)
    (exRoom : Room) (hr : mapGet s.rooms key = some exRoom)
    (hb : mapGet s.clientRooms ws = some key)
    (hne : setDelete exRoom.clients ws ≠ []) (hInv : Inv s) :
    Inv (handleJoinRoom op s ws key).1 := by
  obtain ⟨h1, h2, h3, h4, h5⟩ := hInv
  rw [joinRoom_state_rejoin op s ws key exRoom hr hb hne]
  refine ⟨keys_mapSet_nodup _ _ (keys_mapSet_nodup _ _ h1),
    keys_mapSet_nodup _ _ h2, ?_, ?_, ?_⟩
  · intro k r hk
    by_cases hkey : k = key
    · subst hkey
      rw [mapGet_mapSet_self] at hk
      cases hk
      exact setAdd_nodup ws (setDelete_nodup ws (h3 k exRoom hr))
    · rw [mapGet_mapSet_ne _ _ _ _ hkey, mapGet_mapSet_ne _ _ _ _ hkey] at hk
      exact h3 k r hk
  · intro k r hk c hc
    by_cases hkey : k = key
    · subst hkey
      rw [mapGet_mapSet_self] at hk
      cases hk
      rcases mem_setAdd.mp hc with hcm | hceq
      · obtain ⟨hcm', hcw⟩ := mem_setDelete.mp hcm
        have hcb := h4 k exRoom hr c hcm'
        rw [mapGet_mapSet_ne _ _ _ _ hcw]
        exact hcb
      · subst hceq
        exact mapGet_mapSet_self _ _ _
    · rw [mapGet_mapSet_ne _ _ _ _ hkey, mapGet_mapSet_ne _ _ _ _ hkey] at hk
      have hcb := h4 k r hk c hc
      have hcw : c ≠ ws := by
        intro hcw
        subst hcw
        rw [hb] at hcb
        cases hcb
        exact hkey rfl
      rw [mapGet_mapSet_ne _ _ _ _ hcw]
      exact hcb
  · intro c k hc
    by_cases hcw : c = ws
    · subst hcw
      rw [mapGet_mapSet_self] at hc
      cases hc
      exact ⟨_, mapGet_mapSet_self _ _ _, by simp⟩
    · rw [mapGet_mapSet_ne _ _ _ _ hcw] at hc
      obtain ⟨r, hrk, hcm⟩ := h5 c k hc
      by_cases hkey : k = key
      · subst hkey
        rw [hr] at hrk
        cases hrk
        refine ⟨_, mapGet_mapSet_self _ _ _, ?_⟩
        exact mem_setAdd.mpr (Or.inl (mem_setDelete.mpr ⟨hcm, hcw⟩))
      · refine ⟨r, ?_, hcm⟩
        rw [mapGet_mapSet_ne _ _ _ _ hkey, mapGet_mapSet_ne _ _ _ _ hkey]
        exact hrk

theorem inv_join_other (op : Conn → Bool) (s : ServerState) (ws : Conn) (key : String)
    (exRoom : Room) (cur : String) (room : Room)
    (hr : mapGet s.rooms key = some exRoom)
    (hb : mapGet s.clientRooms ws = some cur)
    (hcur : cur ≠ key)
    (hcr : mapGet s.rooms cur = some room) (hInv : Inv s) :
    Inv (handleJoinRoom op s ws key).1 := by
  obtain ⟨h1, h2, h3, h4, h5⟩ := hInv
  rw [joinRoom_state_other op s ws key exRoom cur room hr hb hcur hcr]
  by_cases hrem : (setDelete room.clients ws).length = 0
  · rw [if_pos hrem]
    refine ⟨keys_mapSet_nodup _ _ (keys_mapDelete_nodup _ h1),
      keys_mapSet_nodup _ _ h2, ?_, ?_, ?_⟩
    · intro k r hk
      by_cases hkey : k = key
      · subst hkey
        rw [mapGet_mapSet_self] at hk
        cases hk
        exact setAdd_nodup ws (h3 k exRoom hr)
      · rw [mapGet_mapSet_ne _ _ _ _ hkey] at hk
        by_cases hkc : k = cur
        · subst hkc
          rw [mapGet_mapDelete_self] at hk
          simp at hk
        · rw [mapGet_mapDelete_ne _ _ _ hkc] at hk
          exact h3 k r hk
    · intro k r hk c hc
      by_cases hkey : k = key
      · subst hkey
        rw [mapGet_mapSet_self] at hk
        cases hk
        rcases mem_setAdd.mp hc with hcm | hceq
        · have hcb := h4 k exRoom hr c hcm
          have hcw : c ≠ ws := by
            intro hcw
            subst hcw
            rw [hb] at hcb
            cases hcb
            exact hcur rfl
          rw [mapGet_mapSet_ne _ _ _ _ hcw]
          exact hcb
        · subst hceq
          exact mapGet_mapSet_self _ _ _
      · rw [mapGet_mapSet_ne _ _ _ _ hkey] at hk
        by_cases hkc : k = cur
        · subst hkc
          rw [mapGet_mapDelete_self] at hk
          simp at hk
        · rw [mapGet_mapDelete_ne _ _ _ hkc] at hk
          have hcb := h4 k r hk c hc
          have hcw : c ≠ ws := by
            intro hcw
            subst hcw
            rw [hb] at hcb
            cases hcb
            exact hkc rfl
          rw [mapGet_mapSet_ne _ _ _ _ hcw]
          exact hcb
    · intro c k hc
      by_cases hcw : c = ws
      · subst hcw
        rw [mapGet_mapSet_self] at hc
        cases hc
        exact ⟨_, mapGet_mapSet_self _ _ _, by simp⟩
      · rw [mapGet_mapSet_ne _ _ _ _ hcw] at hc
        obtain ⟨r, hrk, hcm⟩ := h5 c k hc
        by_cases hkey : k = key
        · subst hkey
          rw [hr] at hrk
          cases hrk
          exact ⟨_, mapGet_mapSet_self _ _ _, by simp [hcm]⟩
        · by_cases hkc : k = cur
          · subst hkc
            rw [hcr] at hrk
            cases hrk
            have hmem : c ∈ setDelete room.clients ws := mem_setDelete.mpr ⟨hcm, hcw⟩
            rw [List.length_eq_zero] at hrem
            rw [hrem] at hmem
            simp at hmem
          · refine ⟨r, ?_, hcm⟩
            rw [mapGet_mapSet_ne _ _ _ _ hkey, mapGet_mapDelete_ne _ _ _ hkc]
            exact hrk
  · rw [if_neg hrem]
    refine ⟨keys_mapSet_nodup _ _ (keys_mapSet_nodup _ _ h1),
      keys_mapSet_nodup _ _ h2, ?_, ?_, ?_⟩
    · intro k r hk
      by_cases hkey : k = key
      · subst hkey
        rw [mapGet_mapSet_self] at hk
        cases hk
        exact setAdd_nodup ws (h3 k exRoom hr)
      · rw [mapGet_mapSet_ne _ _ _ _ hkey] at hk
        by_cases hkc : k = cur
        · subst hkc
          rw [mapGet_mapSet_self] at hk
          cases hk
          exact setDelete_nodup ws (h3 k room hcr)
        · rw [mapGet_mapSet_ne _ _ _ _ hkc] at hk
          exact h3 k r hk
    · intro k r hk c hc
      by_cases hkey : k = key
      · subst hkey
        rw [mapGet_mapSet_self] at hk
        cases hk
        rcases mem_setAdd.mp hc with hcm | hceq
        · have hcb := h4 k exRoom hr c hcm
          have hcw : c ≠ ws := by
            intro hcw
            subst hcw
            rw [hb] at hcb
            cases hcb
            exact hcur rfl
          rw [mapGet_mapSet_ne _ _ _ _ hcw]
          exact hcb
        · subst hceq
          exact mapGet_mapSet_self _ _ _
      · rw [mapGet_mapSet_ne _ _ _ _ hkey] at hk
        by_cases hkc : k = cur
        · subst hkc
          rw [mapGet_mapSet_self] at hk
          cases hk
          obtain ⟨hcm, hcw⟩ := mem_setDelete.mp hc
          have hcb := h4 k room hcr c hcm
          rw [mapGet_mapSet_ne _ _ _ _ hcw]
          exact hcb
        · rw [mapGet_mapSet_ne _ _ _ _ hkc] at hk
          have hcb := h4 k r hk c hc
          have hcw : c ≠ ws := by
            intro hcw
            subst hcw
            rw [hb] at hcb
            cases hcb
            exact hkc rfl
          rw [mapGet_mapSet_ne _ _ _ _ hcw]
          exact hcb
    · intro c k hc
      by_cases hcw : c = ws
      · subst hcw
        rw [mapGet_mapSet_self] at hc
        cases hc
        exact ⟨_, mapGet_mapSet_self _ _ _, by simp⟩
      · rw [mapGet_mapSet_ne _ _ _ _ hcw] at hc
        obtain ⟨r, hrk, hcm⟩ := h5 c k hc
        by_cases hkey : k = key
        · subst hkey
          rw [hr] at hrk
          cases hrk
          exact ⟨_, mapGet_mapSet_self _ _ _, by simp [hcm]⟩
        · by_cases hkc : k = cur
          · subst hkc
            rw [hcr] at hrk
            cases hrk
            refine ⟨{ room with clients := (setDelete room.clients ws) }, ?_, ?_⟩
            · rw [mapGet_mapSet_ne _ _ _ _ hkey]
              exact mapGet_mapSet_self _ _ _
            · exact mem_setDelete.mpr ⟨hcm, hcw⟩
          · refine ⟨r, ?_, hcm⟩
            rw [mapGet_mapSet_ne _ _ _ _ hkey, mapGet_mapSet_ne _ _ _ _ hkc]
            exact hrk

theorem inv_join (op : Conn → Bool) (s : ServerState) (ws : Conn) (key : String)
    (hInv : Inv s)
    (hOK : ¬ (mapGet s.clientRooms ws = some key ∧
        ∃ r, mapGet s.rooms key = some r ∧ setDelete r.clients ws = [])) :
    Inv (handleJoinRoom op s ws key).1 := by
  cases hr : mapGet s.rooms key with
  | none =>
    rw [show (handleJoinRoom op s ws key).1 = s by simp [handleJoinRoom, hr]]
    exact hInv
  | some exRoom =>
    cases hb : mapGet s.clientRooms ws with
    | none => exact inv_join_idle op s ws key exRoom hr hb hInv
    | some cur =>
      by_cases hcur : cur = key
      · rw [hcur] at hb
        have hne : setDelete exRoom.clients ws ≠ [] := fun hd => hOK ⟨hb, exRoom, hr, hd⟩
        exact inv_join_rejoin op s ws key exRoom hr hb hne hInv
      · obtain ⟨room, hcr, -⟩ := hInv.2.2.2.2 ws cur hb
        exact inv_join_other op s ws key exRoom cur room hr hb hcur hcr hInv

theorem inv_init : Inv initialState := by
  refine ⟨List.nodup_nil, List.nodup_nil, ?_, ?_, ?_⟩
  · intro k r hk
    simp [initialState] at hk
  · intro k r hk
    simp [initialState] at hk
  · intro c k hc
    simp [initialState, mapGet] at hc

theorem inv_step (op : Conn → Bool) (o : Oracle) (s : ServerState) (e : Event)
    (hInv : Inv s) (hOK : stepOK s e o) : Inv (handleEvent op o s e).1 := by
  cases e with
  | msg ws m =>
    cases m with
    | create_room => exact inv_create op o s ws hInv hOK.1 hOK.2
    | join_room k => exact inv_join op s ws k hInv hOK
    | send_message t sd => exact inv_send op o s ws t sd hInv
    | leave_room => exact inv_leave op s ws true hInv
    | ping => exact hInv
    | other => exact hInv
  | close ws => exact inv_leave op s ws false hInv

theorem invariant_reachableOK {s : ServerState} (h : ReachableOK s) : Inv s := by
  induction h with
  | init => exact inv_init
  | step e o op hre hOK ih => exact inv_step op o _ e ih hOK

theorem agrees_of_inv {s : ServerState} (h : Inv s) : Agrees s := by
  obtain ⟨h1, h2, h3, h4, h5⟩ := h
  intro k r hmem c
  have hget : mapGet s.rooms k = some r := mapGet_of_mem_nodup h1 hmem
  constructor
  · exact h4 k r hget c
  · intro hc
    obtain ⟨r2, hr2, hcm⟩ := h5 c k hc
    rw [hget] at hr2
    cases hr2
    exact hcm

/-- Claim C2 (amended): the Room Store and the Connection-Room Index agree
in every state reachable by sequences of `create_room`, `join_room`,
`send_message`, `leave_room` and close events, provided every `create_room`
is issued by an unbound connection with a generated key that is not already
stored, and no `join_room` re-joins the room of which the issuer is
currently the sole member.  (Without these provisos the code violates the
invariant: a `create_room` from a connection already in a room leaves it a
member of both rooms, and re-joining one's own singleton room deletes the
room while keeping the binding.) -/
theorem store_index_agreement (s : ServerState) (h : ReachableOK s) : Agrees s :=
  agrees_of_inv (invariant_reachableOK h)

theorem store_index_agreement_witness : Agrees oneCreateState :=
  store_index_agreement oneCreateState
    (ReachableP.step (Event.msg 0 ClientMsg.create_room) ⟨"AAAA1111", 0, 0⟩ allOpen
      ReachableP.init ⟨rfl, rfl⟩)

end InvPreservation

end WS
